import Mathlib

/-!
Verification of the IPv4 routing subsystem (Ip4Route), the UDP I/O helper
(Udp4Io.c) and the decimal formatter (Print.c) of this repository.

The repository ships only the header `Ip4Route.h` for the routing subsystem;
the routing operations themselves (Ip4AddRoute, Ip4DelRoute, Ip4Route,
Ip4FindRouteCache and the cache insertion) are therefore modelled from the
specification, on top of the data layout declared in the header
(IP4_ROUTE_ENTRY, IP4_ROUTE_CACHE_ENTRY, IP4_ROUTE_TABLE, the 31-bucket
cache with the hash macro IP4_ROUTE_CACHE_HASH and the 64-entry bucket cap
IP4_ROUTE_CACHE_MAX).  UdpIoRecvDatagram and ValueToString are embedded
directly from the source files.

Machine integers (IP4_ADDR = UINT32) are modelled as Nat; all claims
operate on in-range values and no routing computation overflows.
-/

/-- Status codes of the EFI interface, restricted to the codes the embedded
functions return or test. -/
inductive EfiStatus where
  | SUCCESS
  | ACCESS_DENIED
  | NOT_FOUND
  | OUT_OF_RESOURCES
  | ALREADY_STARTED
  | NOT_READY
  | ABORTED
  | DEVICE_ERROR
deriving DecidableEq, Repr

/-- EFI_ERROR: every status other than EFI_SUCCESS is an error. -/
def EFI_ERROR : EfiStatus → Bool
  | .SUCCESS => false
  | _ => true

/-- Source `Ip4Route.h`: IP4_ROUTE_CACHE_HASH = 31, the number of hash
buckets of the route cache. -/
def IP4_ROUTE_CACHE_HASH : Nat := 31

/-- Source `Ip4Route.h`: IP4_ROUTE_CACHE_MAX = 64, the maximal number of
cache entries per hash bucket. -/
def IP4_ROUTE_CACHE_MAX : Nat := 64

/-- Source `Ip4Route.h` macro
`IP4_ROUTE_CACHE_HASH(Dst, Src) = ((Dst ^ Src) % IP4_ROUTE_CACHE_HASH)`,
as a bucket index of the 31-bucket cache array. -/
def Ip4RouteCacheHashFn (Dst Src : Nat) : Fin IP4_ROUTE_CACHE_HASH :=
  ⟨(Dst ^^^ Src) % IP4_ROUTE_CACHE_HASH, Nat.mod_lt _ (by decide)⟩

/-- Source `Ip4Route.h`: the route entry of the route table.  `Id` models
the identity of the allocated entry (the header tags cache entries with the
identity of the originating route entry); the `IP4_DIRECT_ROUTE` bit of
`Flag` is modelled as `isDirect`. -/
structure IP4_ROUTE_ENTRY where
  Dest : Nat
  Netmask : Nat
  NextHop : Nat
  isDirect : Bool
  Id : Nat
deriving DecidableEq, Repr

/-- Source `Ip4Route.h`: the route cache entry; `Tag` records the identity
of the route entry the cache entry was spawned from. -/
structure IP4_ROUTE_CACHE_ENTRY where
  Dest : Nat
  Src : Nat
  NextHop : Nat
  Tag : Nat
deriving DecidableEq, Repr

/-- Source `Ip4Route.h`: the route table, with one route area per prefix
length (0..32) and the embedded 31-bucket route cache.  `NextId` is the
counter handing out route-entry identities, so that an entry added later
carries a strictly larger `Id`. -/
structure IP4_ROUTE_TABLE where
  TotalNum : Nat
  RouteArea : Nat → List IP4_ROUTE_ENTRY
  Cache : Fin IP4_ROUTE_CACHE_HASH → List IP4_ROUTE_CACHE_ENTRY
  NextId : Nat

/-- Modelled from the spec: netmask of a prefix length n (n leading one
bits in a 32-bit word). -/
def maskOfLen (n : Nat) : Nat := 2 ^ 32 - 2 ^ (32 - n)

/-- Modelled from the spec: prefix length of a netmask, the count of
leading set bits; masks are contiguous by caller contract. -/
def maskToLen (mask : Nat) : Nat :=
  ((List.range 33).find? (fun n => maskOfLen n == mask)).getD 0

/-- Modelled from the spec: a route entry matches a destination when
`(destination AND entry.netmask) == entry.destination`. -/
def routeMatch (Dest : Nat) (e : IP4_ROUTE_ENTRY) : Bool :=
  Dest &&& e.Netmask == e.Dest

/-- Modelled from the spec: exact (destination, netmask, next hop) triple
equality used by duplicate detection and deletion. -/
def tripleEq (Dest Netmask Gateway : Nat) (e : IP4_ROUTE_ENTRY) : Bool :=
  e.Dest == Dest && (e.Netmask == Netmask && e.NextHop == Gateway)

/-- Modelled from the spec: `Ip4CreateRouteTable`, an empty route table
with all route areas and all cache buckets empty. -/
def Ip4CreateRouteTable : IP4_ROUTE_TABLE :=
  { TotalNum := 0
    RouteArea := fun _ => []
    Cache := fun _ => []
    NextId := 0 }

/-- Modelled from the spec: `Ip4AddRoute`.  Scans the bucket indexed by the
prefix length for an identical triple and fails with EFI_ACCESS_DENIED if
found; otherwise inserts a fresh entry at the head of that bucket, with
`isDirect` set when the gateway equals the destination, and increments
`TotalNum`.  The cache is not touched.  (Allocation is assumed to
succeed; the EFI_OUT_OF_RESOURCES path is not modelled.) -/
def Ip4AddRoute (t : IP4_ROUTE_TABLE) (Dest Netmask Gateway : Nat) :
    EfiStatus × IP4_ROUTE_TABLE :=
  if (t.RouteArea (maskToLen Netmask)).any (tripleEq Dest Netmask Gateway) then
    (.ACCESS_DENIED, t)
  else
    (.SUCCESS,
      { t with
        TotalNum := t.TotalNum + 1
        NextId := t.NextId + 1
        RouteArea := fun i =>
          if i = maskToLen Netmask then
            { Dest := Dest, Netmask := Netmask, NextHop := Gateway,
              isDirect := Gateway == Dest, Id := t.NextId } ::
              t.RouteArea (maskToLen Netmask)
          else t.RouteArea i })

/-- Modelled from the spec: `Ip4DelRoute`.  Locates the entry by exact
triple equality in the bucket of its prefix length (EFI_NOT_FOUND if
absent), removes it, decrements `TotalNum`, and removes from every cache
bucket every cache entry whose tag is the identity of the removed route
entry. -/
def Ip4DelRoute (t : IP4_ROUTE_TABLE) (Dest Netmask Gateway : Nat) :
    EfiStatus × IP4_ROUTE_TABLE :=
  match (t.RouteArea (maskToLen Netmask)).find? (tripleEq Dest Netmask Gateway) with
  | none => (.NOT_FOUND, t)
  | some e =>
    (.SUCCESS,
      { t with
        TotalNum := t.TotalNum - 1
        RouteArea := fun i =>
          if i = maskToLen Netmask then
            (t.RouteArea (maskToLen Netmask)).eraseP (tripleEq Dest Netmask Gateway)
          else t.RouteArea i
        Cache := fun h => (t.Cache h).filter (fun c => c.Tag != e.Id) })

/-- Modelled from the spec: `Ip4FindRouteCache`, a pure lookup hashing
(destination, source) and scanning that bucket for an exact match. -/
def Ip4FindRouteCache (t : IP4_ROUTE_TABLE) (Dest Src : Nat) :
    Option IP4_ROUTE_CACHE_ENTRY :=
  (t.Cache (Ip4RouteCacheHashFn Dest Src)).find?
    (fun c => c.Dest == Dest && c.Src == Src)

/-- Modelled from the spec: cache insertion.  The new entry goes to the
head of the bucket selected by the hash of its (destination, source); if
the bucket already holds IP4_ROUTE_CACHE_MAX entries the least-recently
inserted entry (the last of the bucket, since insertion is head-first) is
evicted first. -/
def Ip4RouteCacheInsert (t : IP4_ROUTE_TABLE) (c : IP4_ROUTE_CACHE_ENTRY) :
    IP4_ROUTE_TABLE :=
  { t with
    Cache := fun i =>
      if i = Ip4RouteCacheHashFn c.Dest c.Src then
        c :: (if (t.Cache (Ip4RouteCacheHashFn c.Dest c.Src)).length ≥
                 IP4_ROUTE_CACHE_MAX then
                (t.Cache (Ip4RouteCacheHashFn c.Dest c.Src)).dropLast
              else t.Cache (Ip4RouteCacheHashFn c.Dest c.Src))
      else t.Cache i }

/-- Modelled from the spec: the longest-prefix-match scan of `Ip4Route`,
walking the route areas from prefix length n down to 0 and returning the
first entry of the first non-empty matching bucket. -/
def Ip4RouteScan (t : IP4_ROUTE_TABLE) (Dest : Nat) : Nat → Option IP4_ROUTE_ENTRY
  | 0 => (t.RouteArea 0).find? (routeMatch Dest)
  | n + 1 =>
    match (t.RouteArea (n + 1)).find? (routeMatch Dest) with
    | some e => some e
    | none => Ip4RouteScan t Dest n

/-- Modelled from the spec: the table scan of the resolver, buckets 32
down to 0. -/
def Ip4FindRouteEntry (t : IP4_ROUTE_TABLE) (Dest : Nat) :
    Option IP4_ROUTE_ENTRY :=
  Ip4RouteScan t Dest 32

/-- Modelled from the spec: `Ip4Route`.  Cache first; on miss, the
longest-prefix-match scan; on a match a new cache entry is materialized,
whose next hop is the destination itself for a direct route and the
entry's next hop otherwise, tagged with the matched entry's identity, and
inserted into the cache.  Returns the handed-out cache entry (`none` is
the unreachable failure) together with the updated table. -/
def Ip4Route (t : IP4_ROUTE_TABLE) (Dest Src : Nat) :
    Option IP4_ROUTE_CACHE_ENTRY × IP4_ROUTE_TABLE :=
  match Ip4FindRouteCache t Dest Src with
  | some c => (some c, t)
  | none =>
    match Ip4FindRouteEntry t Dest with
    | none => (none, t)
    | some e =>
      let c : IP4_ROUTE_CACHE_ENTRY :=
        { Dest := Dest, Src := Src,
          NextHop := if e.isDirect then Dest else e.NextHop, Tag := e.Id }
      (some c, Ip4RouteCacheInsert t c)

/-- An operation on a route table: the three mutating entry points. -/
inductive RtOp where
  | add (d m g : Nat)
  | del (d m g : Nat)
  | route (d s : Nat)
deriving DecidableEq, Repr

/-- Apply one mutating operation to a route table. -/
def Ip4ApplyOp (t : IP4_ROUTE_TABLE) : RtOp → IP4_ROUTE_TABLE
  | .add d m g => (Ip4AddRoute t d m g).2
  | .del d m g => (Ip4DelRoute t d m g).2
  | .route d s => (Ip4Route t d s).2

/-- The route table reached from the empty table by a sequence of
operations; every live table of the driver is of this form. -/
def Ip4RunOps (ops : List RtOp) : IP4_ROUTE_TABLE :=
  ops.foldl Ip4ApplyOp Ip4CreateRouteTable

/-- Source `Udp4Io.c`: the receive-request token wrapped by
UdpIoCreateRxToken.  The completion token status is initialized to
EFI_NOT_READY. -/
structure UDP_RX_TOKEN where
  CallBack : Nat
  Context : Nat
  HeadLen : Nat
  Status : EfiStatus
deriving DecidableEq, Repr

/-- Source `Udp4Io.c`: the UDP I/O port state visible to
UdpIoRecvDatagram: the pending receive request (NULL when none) and the
list of sent datagrams (opaque here). -/
structure UDP_IO_PORT where
  RecvRequest : Option UDP_RX_TOKEN
  SentDatagram : List Nat
deriving DecidableEq, Repr

/-- Source `Udp4Io.c` UdpIoCreateRxToken: returns NULL when the pool
allocation fails, or when gBS->CreateEvent fails (in which case the token
memory is freed); otherwise the fresh token with status EFI_NOT_READY.
The two environment outcomes are passed as the booleans. -/
def UdpIoCreateRxToken (CallBack Context HeadLen : Nat)
    (allocOk createEventOk : Bool) : Option UDP_RX_TOKEN :=
  if !allocOk then none
  else if !createEventOk then none
  else some { CallBack := CallBack, Context := Context, HeadLen := HeadLen,
              Status := .NOT_READY }

/-- Source `Udp4Io.c` UdpIoRecvDatagram: fails with EFI_ALREADY_STARTED if
a receive request is pending; EFI_OUT_OF_RESOURCES if the token cannot be
created; frees the token and propagates the status if Udp->Receive fails;
otherwise records the token as the pending request and succeeds.  The
outcome of the environment calls (allocation, event creation, Receive) is
passed in as `allocOk`, `createEventOk` and `receiveStatus`. -/
def UdpIoRecvDatagram (UdpIo : UDP_IO_PORT) (CallBack Context HeadLen : Nat)
    (allocOk createEventOk : Bool) (receiveStatus : EfiStatus) :
    EfiStatus × UDP_IO_PORT :=
  if UdpIo.RecvRequest.isSome then (.ALREADY_STARTED, UdpIo)
  else
    match UdpIoCreateRxToken CallBack Context HeadLen allocOk createEventOk with
    | none => (.OUT_OF_RESOURCES, UdpIo)
    | some Token =>
      if EFI_ERROR receiveStatus then (receiveStatus, UdpIo)
      else (.SUCCESS, { UdpIo with RecvRequest := some Token })

/-- The COMMA_TYPE print flag tested by ValueToString.  Its declaring
header is not among the sources; the numeric value is immaterial to the
claims (only whether the bit is set), 0x08 is used. -/
def COMMA_TYPE : Nat := 8

/-- Source `Print.c` ValueToString, the do-while loop: emits the decimal
digits of `v` least-significant first and, when `comma` is set, a ','
after every third digit while more digits remain (`Value != 0`).
`nc` is the running NumberCount. -/
def vtsLoop (comma : Bool) (v nc : Nat) : List Char :=
  if h : v / 10 = 0 then [Char.ofNat (v % 10 + 48)]
  else
    Char.ofNat (v % 10 + 48) ::
      ((if comma && ((nc + 1) % 3 == 0) then [','] else []) ++
        vtsLoop comma (v / 10) (nc + 1))
termination_by v
decreasing_by
  exact Nat.div_lt_self (Nat.pos_of_ne_zero (fun hv => h (by simp [hv]))) (by decide)

/-- Source `Print.c` ValueToString: negates a negative value, produces the
digit/comma sequence least-significant first, writes the sign, reverses
the temporary into the buffer and null-terminates it.  Returns the buffer
contents (the written characters followed by the terminator) and the
returned Count, which excludes the terminator. -/
def ValueToString (Flags : Nat) (Value : Int) : List Char × Nat :=
  let V : Int := if Value < 0 then -Value else Value
  let Temp := vtsLoop ((Flags &&& COMMA_TYPE) == COMMA_TYPE) V.toNat 0
  let Buf := (if Value < 0 then ['-'] else []) ++ Temp.reverse
  (Buf ++ [Char.ofNat 0], Buf.length)

/-- The decimal digit characters of a natural number, most significant
digit first (spec side of the ValueToString claim). -/
def decChars (n : Nat) : List Char :=
  if n = 0 then ['0']
  else ((Nat.digits 10 n).map (fun d => Char.ofNat (d + 48))).reverse

/-- The decimal digit characters of a natural number, least significant
digit first; bridge between the loop of ValueToString and `decChars`. -/
def lsbDigits (n : Nat) : List Char :=
  if n = 0 then ['0']
  else (Nat.digits 10 n).map (fun d => Char.ofNat (d + 48))

/-- Spec side of the comma rule of ValueToString: a ',' after every group
of three digits counted from the least-significant (rightmost) digit, with
no comma at the most-significant end. -/
def specCommas (ds : List Char) : List Char :=
  if h : ds.length ≤ 3 then ds
  else specCommas (ds.take (ds.length - 3)) ++ ',' :: ds.drop (ds.length - 3)
termination_by ds.length
decreasing_by
  simp only [List.length_take]
  omega

/-- Spec side of the ValueToString claim: a leading '-' exactly when the
value is negative, then the decimal digits most significant first, with
commas inserted by the rule of `specCommas` when the COMMA_TYPE flag is
set. -/
def specDecimalString (Flags : Nat) (Value : Int) : List Char :=
  (if Value < 0 then ['-'] else []) ++
    (if (Flags &&& COMMA_TYPE) == COMMA_TYPE then
      specCommas (decChars Value.natAbs)
    else decChars Value.natAbs)

/-- Comma insertion into a least-significant-first digit list: a ',' after
every digit whose running count is a multiple of three, except after the
last digit. -/
def commaIns : List Char → Nat → List Char
  | [], _ => []
  | [d], _ => [d]
  | d :: e :: ds, nc =>
    d :: ((if (nc + 1) % 3 = 0 then [','] else []) ++ commaIns (e :: ds) (nc + 1))

/-- A successful `find?` splits the list at the first element satisfying
the predicate. -/
theorem find?_split {α : Type} {p : α → Bool} {l : List α} {e : α}
    (h : l.find? p = some e) :
    p e = true ∧ ∃ pre post, l = pre ++ e :: post ∧ ∀ x ∈ pre, p x = false := by
  rw [List.find?_eq_some] at h
  obtain ⟨hp, pre, post, rfl, hpre⟩ := h
  exact ⟨hp, pre, post, rfl, fun x hx => by simpa using hpre x hx⟩

/-- `eraseP` removes exactly the first element satisfying the predicate. -/
theorem eraseP_split {α : Type} (p : α → Bool) (pre post : List α) (e : α)
    (hpre : ∀ x ∈ pre, p x = false) (hpe : p e = true) :
    (pre ++ e :: post).eraseP p = pre ++ post := by
  induction pre with
  | nil => simp [List.eraseP_cons_of_pos, hpe]
  | cons a l ih =>
    simp only [List.cons_append]
    rw [List.eraseP_cons_of_neg]
    · simp [ih (fun x hx => hpre x (List.mem_cons_of_mem a hx))]
    · simp [hpre a (List.mem_cons_self a l)]

/-- The bucket scan returns none exactly when no bucket up to `n` holds a
matching entry. -/
theorem scan_eq_none_iff (t : IP4_ROUTE_TABLE) (D : Nat) (n : Nat) :
    Ip4RouteScan t D n = none ↔
      ∀ L, L ≤ n → (t.RouteArea L).find? (routeMatch D) = none := by
  induction n with
  | zero =>
    constructor
    · intro h L hL
      have : L = 0 := Nat.le_zero.mp hL
      subst this
      simpa [Ip4RouteScan] using h
    · intro h
      simpa [Ip4RouteScan] using h 0 (Nat.le_refl 0)
  | succ n ih =>
    cases h : (t.RouteArea (n + 1)).find? (routeMatch D) with
    | some e =>
      simp only [Ip4RouteScan, h]
      constructor
      · intro hc
        exact absurd hc (by simp)
      · intro hall
        exact absurd (hall (n + 1) (Nat.le_refl _)) (by simp [h])
    | none =>
      simp only [Ip4RouteScan, h]
      rw [ih]
      constructor
      · intro hall L hL
        rcases Nat.lt_or_ge L (n + 1) with hlt | hge
        · exact hall L (Nat.lt_succ_iff.mp hlt)
        · have : L = n + 1 := Nat.le_antisymm hL hge
          subst this
          exact h
      · intro hall L hL
        exact hall L (Nat.le_succ_of_le hL)

/-- A successful bucket scan identifies the bucket it matched in: no
bucket of strictly larger prefix length (up to `n`) matches. -/
theorem scan_eq_some (t : IP4_ROUTE_TABLE) (D : Nat) :
    ∀ (n : Nat) (e : IP4_ROUTE_ENTRY), Ip4RouteScan t D n = some e →
      ∃ L, L ≤ n ∧ (t.RouteArea L).find? (routeMatch D) = some e ∧
        ∀ L', L < L' → L' ≤ n → (t.RouteArea L').find? (routeMatch D) = none := by
  intro n
  induction n with
  | zero =>
    intro e h
    refine ⟨0, Nat.le_refl 0, by simpa [Ip4RouteScan] using h, ?_⟩
    intro L' h1 h2
    omega
  | succ n ih =>
    intro e h
    cases h' : (t.RouteArea (n + 1)).find? (routeMatch D) with
    | some e' =>
      have he : e' = e := by simpa [Ip4RouteScan, h'] using h
      subst he
      refine ⟨n + 1, Nat.le_refl _, h', ?_⟩
      intro L' h1 h2
      omega
    | none =>
      have hrec : Ip4RouteScan t D n = some e := by simpa [Ip4RouteScan, h'] using h
      obtain ⟨L, hLn, hf, habove⟩ := ih e hrec
      refine ⟨L, Nat.le_succ_of_le hLn, hf, ?_⟩
      intro L' h1 h2
      rcases Nat.lt_or_ge L' (n + 1) with hlt | hge
      · exact habove L' h1 (Nat.lt_succ_iff.mp hlt)
      · have : L' = n + 1 := Nat.le_antisymm h2 hge
        subst this
        exact h'

/-- The computed prefix length of any mask is at most 32. -/
theorem maskToLen_le (mask : Nat) : maskToLen mask ≤ 32 := by
  unfold maskToLen
  cases h : (List.range 33).find? (fun n => maskOfLen n == mask) with
  | none => simp
  | some n =>
    have := List.mem_range.mp (List.mem_of_find?_eq_some h)
    simpa using Nat.lt_succ_iff.mp this

/-- Invariant of every reachable route table: entries sit in the bucket of
their prefix length, identities are below the allocation counter, each
bucket is strictly decreasing in identity (head = most recently added),
identities are unique across buckets, and the direct flag agrees with the
next-hop-equals-destination encoding. -/
structure WFTable (t : IP4_ROUTE_TABLE) : Prop where
  len_eq : ∀ i, ∀ e ∈ t.RouteArea i, maskToLen e.Netmask = i
  id_lt : ∀ i, ∀ e ∈ t.RouteArea i, e.Id < t.NextId
  sorted : ∀ i, (t.RouteArea i).Pairwise (fun a b => b.Id < a.Id)
  cross : ∀ i j, i ≠ j → ∀ e ∈ t.RouteArea i, ∀ f ∈ t.RouteArea j, e.Id ≠ f.Id
  direct : ∀ i, ∀ e ∈ t.RouteArea i, e.isDirect = (e.NextHop == e.Dest)

/-- The empty route table is well formed. -/
theorem wf_create : WFTable Ip4CreateRouteTable := by
  constructor <;> simp [Ip4CreateRouteTable]

/-- Well-formedness only concerns the route areas and the identity
counter. -/
theorem wf_of_eq (t t' : IP4_ROUTE_TABLE) (h : WFTable t)
    (ha : t'.RouteArea = t.RouteArea) (hn : t'.NextId = t.NextId) :
    WFTable t' := by
  constructor
  · rw [ha]; exact h.len_eq
  · rw [ha, hn]; exact h.id_lt
  · rw [ha]; exact h.sorted
  · rw [ha]; exact h.cross
  · rw [ha]; exact h.direct

/-- Ip4AddRoute preserves the table invariant. -/
theorem wf_addRoute (t : IP4_ROUTE_TABLE) (h : WFTable t) (d m g : Nat) :
    WFTable (Ip4AddRoute t d m g).2 := by
  cases hc : (t.RouteArea (maskToLen m)).any (tripleEq d m g) with
  | true => simpa [Ip4AddRoute, hc] using h
  | false =>
    have hset : (Ip4AddRoute t d m g).2.RouteArea = fun i =>
        if i = maskToLen m then
          { Dest := d, Netmask := m, NextHop := g, isDirect := g == d,
            Id := t.NextId } :: t.RouteArea (maskToLen m)
        else t.RouteArea i := by
      simp [Ip4AddRoute, hc]
    have hnext : (Ip4AddRoute t d m g).2.NextId = t.NextId + 1 := by
      simp [Ip4AddRoute, hc]
    have hmem : ∀ i x, x ∈ (Ip4AddRoute t d m g).2.RouteArea i ↔
        (i = maskToLen m ∧ x = { Dest := d, Netmask := m, NextHop := g, isDirect := g == d, Id := t.NextId }) ∨ x ∈ t.RouteArea i := by
      intro i x
      simp only [hset]
      by_cases hi : i = maskToLen m
      · subst hi
        rw [if_pos rfl, List.mem_cons]
        constructor
        · rintro (rfl | hx)
          · exact Or.inl ⟨rfl, rfl⟩
          · exact Or.inr hx
        · rintro (⟨-, rfl⟩ | hx)
          · exact Or.inl rfl
          · exact Or.inr hx
      · rw [if_neg hi]
        constructor
        · intro hx
          exact Or.inr hx
        · rintro (⟨hcontra, -⟩ | hx)
          · exact absurd hcontra hi
          · exact hx
    constructor
    · intro i x hx
      rcases (hmem i x).mp hx with ⟨rfl, rfl⟩ | hx
      · rfl
      · exact h.len_eq i x hx
    · intro i x hx
      rw [hnext]
      rcases (hmem i x).mp hx with ⟨rfl, rfl⟩ | hx
      · exact Nat.lt_succ_self _
      · exact Nat.lt_succ_of_lt (h.id_lt i x hx)
    · intro i
      simp only [hset]
      by_cases hi : i = maskToLen m
      · subst hi
        rw [if_pos rfl, List.pairwise_cons]
        exact ⟨fun f hf => h.id_lt _ f hf, h.sorted _⟩
      · rw [if_neg hi]
        exact h.sorted i
    · intro i j hij x hx y hy
      rcases (hmem i x).mp hx with ⟨hi, rfl⟩ | hx
      · rcases (hmem j y).mp hy with ⟨hj, rfl⟩ | hy
        · exact absurd (hi.trans hj.symm) hij
        · exact Nat.ne_of_gt (h.id_lt j y hy)
      · rcases (hmem j y).mp hy with ⟨hj, rfl⟩ | hy
        · exact Nat.ne_of_lt (h.id_lt i x hx)
        · exact h.cross i j hij x hx y hy
    · intro i x hx
      rcases (hmem i x).mp hx with ⟨-, rfl⟩ | hx
      · rfl
      · exact h.direct i x hx

/-- Ip4DelRoute preserves the table invariant. -/
theorem wf_delRoute (t : IP4_ROUTE_TABLE) (h : WFTable t) (d m g : Nat) :
    WFTable (Ip4DelRoute t d m g).2 := by
  cases hf : (t.RouteArea (maskToLen m)).find? (tripleEq d m g) with
  | none => simpa [Ip4DelRoute, hf] using h
  | some e0 =>
    simp only [Ip4DelRoute, hf]
    have hsub : ∀ i x, x ∈ (if i = maskToLen m then
        (t.RouteArea (maskToLen m)).eraseP (tripleEq d m g)
      else t.RouteArea i) → x ∈ t.RouteArea i := by
      intro i x hx
      by_cases hi : i = maskToLen m
      · subst hi
        rw [if_pos rfl] at hx
        exact (List.eraseP_sublist _).mem hx
      · rwa [if_neg hi] at hx
    constructor
    · intro i x hx
      exact h.len_eq i x (hsub i x hx)
    · intro i x hx
      exact h.id_lt i x (hsub i x hx)
    · intro i
      by_cases hi : i = maskToLen m
      · subst hi
        simp only [if_pos rfl]
        exact List.Pairwise.sublist (List.eraseP_sublist _) (h.sorted _)
      · simp only [if_neg hi]
        exact h.sorted i
    · intro i j hij x hx y hy
      exact h.cross i j hij x (hsub i x hx) y (hsub j y hy)
    · intro i x hx
      exact h.direct i x (hsub i x hx)

/-- Ip4Route preserves the table invariant (it never touches the route
areas nor the identity counter). -/
theorem wf_route (t : IP4_ROUTE_TABLE) (h : WFTable t) (d s : Nat) :
    WFTable (Ip4Route t d s).2 := by
  cases hc : Ip4FindRouteCache t d s with
  | some c => simpa [Ip4Route, hc] using h
  | none =>
    cases hf : Ip4FindRouteEntry t d with
    | none => simpa [Ip4Route, hc, hf] using h
    | some e =>
      simp only [Ip4Route, hc, hf]
      exact wf_of_eq t _ h rfl rfl

/-- Every reachable route table is well formed. -/
theorem wf_runOps (ops : List RtOp) : WFTable (Ip4RunOps ops) := by
  have main : ∀ (l : List RtOp) (t : IP4_ROUTE_TABLE), WFTable t →
      WFTable (l.foldl Ip4ApplyOp t) := by
    intro l
    induction l with
    | nil => intro t ht; exact ht
    | cons op l ih =>
      intro t ht
      refine ih _ ?_
      cases op with
      | add d m g => exact wf_addRoute t ht d m g
      | del d m g => exact wf_delRoute t ht d m g
      | route d s => exact wf_route t ht d s
  exact main ops Ip4CreateRouteTable wf_create

/-- On a well-formed table, a successful resolver scan yields a matching
entry of maximal prefix length, and of maximal identity (most recently
added) among the matching entries of that prefix length. -/
theorem findRouteEntry_lpm (t : IP4_ROUTE_TABLE) (h : WFTable t) (D : Nat)
    (e : IP4_ROUTE_ENTRY) (hf : Ip4FindRouteEntry t D = some e) :
    routeMatch D e = true ∧ (∃ i, e ∈ t.RouteArea i) ∧
    (∀ j f, f ∈ t.RouteArea j → routeMatch D f = true →
      maskToLen f.Netmask ≤ maskToLen e.Netmask) ∧
    (∀ j f, f ∈ t.RouteArea j → routeMatch D f = true →
      maskToLen f.Netmask = maskToLen e.Netmask → f.Id ≤ e.Id) := by
  obtain ⟨L, hL32, hfind, habove⟩ := scan_eq_some t D 32 e hf
  have hmem : e ∈ t.RouteArea L := List.mem_of_find?_eq_some hfind
  have hmatch : routeMatch D e = true := List.find?_some hfind
  have hLe : maskToLen e.Netmask = L := h.len_eq L e hmem
  refine ⟨hmatch, ⟨L, hmem⟩, ?_, ?_⟩
  · intro j f hfj hfm
    have hj : maskToLen f.Netmask = j := h.len_eq j f hfj
    rw [hj, hLe]
    by_contra hlt
    push_neg at hlt
    have hj32 : j ≤ 32 := hj ▸ maskToLen_le f.Netmask
    exact (List.find?_eq_none.mp (habove j hlt hj32) f hfj) hfm
  · intro j f hfj hfm heq
    have hj : maskToLen f.Netmask = j := h.len_eq j f hfj
    have hjL : j = L := by rw [← hj, heq, hLe]
    subst hjL
    obtain ⟨-, pre, post, hsplit, hpre⟩ := find?_split hfind
    rw [hsplit] at hfj
    rcases List.mem_append.mp hfj with hfpre | hfcons
    · exact absurd hfm (by simp [hpre f hfpre])
    · rcases List.mem_cons.mp hfcons with rfl | hfpost
      · exact Nat.le_refl _
      · have hs := h.sorted j
        rw [hsplit] at hs
        obtain ⟨-, hs2, -⟩ := List.pairwise_append.mp hs
        exact Nat.le_of_lt ((List.pairwise_cons.mp hs2).1 f hfpost)

/-- C1: for every reachable route table (any order of route additions,
deletions and lookups) and every (destination, source) pair that is not
already cached but is matched by at least one route entry, Ip4Route
returns a cache entry whose next hop and tag come from a matching entry of
maximal prefix length; among matching entries of that same prefix length
the entry with the greatest identity, i.e. the most recently added one,
wins. -/
theorem ip4Route_longest_prefix_match (ops : List RtOp) (Dest Src : Nat)
    (hmiss : Ip4FindRouteCache (Ip4RunOps ops) Dest Src = none)
    (hmatch : ∃ i e, e ∈ (Ip4RunOps ops).RouteArea i ∧ routeMatch Dest e = true) :
    ∃ c e, (Ip4Route (Ip4RunOps ops) Dest Src).1 = some c ∧
      (∃ i, e ∈ (Ip4RunOps ops).RouteArea i) ∧ routeMatch Dest e = true ∧
      c.Tag = e.Id ∧ c.NextHop = (if e.isDirect then Dest else e.NextHop) ∧
      (∀ j f, f ∈ (Ip4RunOps ops).RouteArea j → routeMatch Dest f = true →
        maskToLen f.Netmask ≤ maskToLen e.Netmask) ∧
      (∀ j f, f ∈ (Ip4RunOps ops).RouteArea j → routeMatch Dest f = true →
        maskToLen f.Netmask = maskToLen e.Netmask → f.Id ≤ e.Id) := by
  have hwf := wf_runOps ops
  obtain ⟨i, e0, hmem0, hm0⟩ := hmatch
  cases hf : Ip4FindRouteEntry (Ip4RunOps ops) Dest with
  | none =>
    have hall := (scan_eq_none_iff (Ip4RunOps ops) Dest 32).mp hf
    have hi : maskToLen e0.Netmask = i := hwf.len_eq i e0 hmem0
    have h32 : i ≤ 32 := hi ▸ maskToLen_le e0.Netmask
    exact absurd hm0 (List.find?_eq_none.mp (hall i h32) e0 hmem0)
  | some e =>
    obtain ⟨he1, he2, he3, he4⟩ := findRouteEntry_lpm _ hwf Dest e hf
    refine ⟨{ Dest := Dest, Src := Src, NextHop := if e.isDirect then Dest else e.NextHop, Tag := e.Id }, e, ?_, he2, he1, rfl, rfl, he3, he4⟩
    simp [Ip4Route, hmiss, hf]

/-- C2: deleting a route entry synchronously removes every cache entry
tagged with it: after Ip4DelRoute succeeds on a reachable table, no
Ip4FindRouteCache lookup for any (destination, source) returns an entry
tagged with the deleted route entry, and no subsequent Ip4Route call
returns one either. -/
theorem ip4DelRoute_invalidation (ops : List RtOp) (Dest Netmask Gateway : Nat)
    (e : IP4_ROUTE_ENTRY)
    (hfind : ((Ip4RunOps ops).RouteArea (maskToLen Netmask)).find?
      (tripleEq Dest Netmask Gateway) = some e) :
    (Ip4DelRoute (Ip4RunOps ops) Dest Netmask Gateway).1 = .SUCCESS ∧
    (∀ d s c, Ip4FindRouteCache
        (Ip4DelRoute (Ip4RunOps ops) Dest Netmask Gateway).2 d s = some c →
      c.Tag ≠ e.Id) ∧
    (∀ d s c, (Ip4Route
        (Ip4DelRoute (Ip4RunOps ops) Dest Netmask Gateway).2 d s).1 = some c →
      c.Tag ≠ e.Id) := by
  have hwf : WFTable (Ip4RunOps ops) := wf_runOps ops
  have h1 : (Ip4DelRoute (Ip4RunOps ops) Dest Netmask Gateway).1 = .SUCCESS := by
    simp [Ip4DelRoute, hfind]
  have hcache : ∀ hh, (Ip4DelRoute (Ip4RunOps ops) Dest Netmask Gateway).2.Cache hh =
      ((Ip4RunOps ops).Cache hh).filter (fun c => c.Tag != e.Id) := by
    intro hh
    simp [Ip4DelRoute, hfind]
  have harea : ∀ i, (Ip4DelRoute (Ip4RunOps ops) Dest Netmask Gateway).2.RouteArea i =
      if i = maskToLen Netmask then
        ((Ip4RunOps ops).RouteArea (maskToLen Netmask)).eraseP
          (tripleEq Dest Netmask Gateway)
      else (Ip4RunOps ops).RouteArea i := by
    intro i
    simp [Ip4DelRoute, hfind]
  have partA : ∀ d s c, Ip4FindRouteCache
      (Ip4DelRoute (Ip4RunOps ops) Dest Netmask Gateway).2 d s = some c →
      c.Tag ≠ e.Id := by
    intro d s c hc
    unfold Ip4FindRouteCache at hc
    rw [hcache] at hc
    have hmemc := List.mem_of_find?_eq_some hc
    have := (List.mem_filter.mp hmemc).2
    simpa using this
  refine ⟨h1, partA, ?_⟩
  intro d s c hc
  cases hcc : Ip4FindRouteCache (Ip4DelRoute (Ip4RunOps ops) Dest Netmask Gateway).2 d s with
  | some c0 =>
    have hc0 : c0 = c := by simpa [Ip4Route, hcc] using hc
    subst hc0
    exact partA d s c0 hcc
  | none =>
    cases hfe : Ip4FindRouteEntry (Ip4DelRoute (Ip4RunOps ops) Dest Netmask Gateway).2 d with
    | none => simp [Ip4Route, hcc, hfe] at hc
    | some f =>
      have hcf : ({ Dest := d, Src := s, NextHop := if f.isDirect then d else f.NextHop, Tag := f.Id } : IP4_ROUTE_CACHE_ENTRY) = c := by
        simpa [Ip4Route, hcc, hfe] using hc
      have hct : c.Tag = f.Id := by rw [← hcf]
      rw [hct]
      obtain ⟨L, hL32, hfind2, -⟩ := scan_eq_some _ d 32 f hfe
      have hmemf := List.mem_of_find?_eq_some hfind2
      rw [harea] at hmemf
      by_cases hiL : L = maskToLen Netmask
      · subst hiL
        rw [if_pos rfl] at hmemf
        obtain ⟨hpe, pre, post, hsplit, hpre⟩ := find?_split hfind
        rw [hsplit, eraseP_split _ pre post e hpre hpe] at hmemf
        have hs := hwf.sorted (maskToLen Netmask)
        rw [hsplit] at hs
        obtain ⟨-, hs2, hs3⟩ := List.pairwise_append.mp hs
        rcases List.mem_append.mp hmemf with hfpre | hfpost
        · exact Nat.ne_of_gt (hs3 f hfpre e (List.mem_cons_self e post))
        · exact Nat.ne_of_lt ((List.pairwise_cons.mp hs2).1 f hfpost)
      · rw [if_neg hiL] at hmemf
        have hmeme : e ∈ (Ip4RunOps ops).RouteArea (maskToLen Netmask) :=
          List.mem_of_find?_eq_some hfind
        exact hwf.cross L (maskToLen Netmask) hiL f hmemf e hmeme

/-- C3: after a successful Ip4AddRoute, repeating the identical call fails
with EFI_ACCESS_DENIED and leaves the table (hence the existing entry and
TotalNum) untouched, so two identical calls in a row grow TotalNum by
exactly one; in general a call whose triple is already present in its
bucket fails with EFI_ACCESS_DENIED and changes nothing. -/
theorem ip4AddRoute_duplicate (t : IP4_ROUTE_TABLE) (d m g : Nat)
    (h : (t.RouteArea (maskToLen m)).any (tripleEq d m g) = false) :
    (Ip4AddRoute t d m g).1 = .SUCCESS ∧
    (Ip4AddRoute t d m g).2.TotalNum = t.TotalNum + 1 ∧
    Ip4AddRoute (Ip4AddRoute t d m g).2 d m g =
      (.ACCESS_DENIED, (Ip4AddRoute t d m g).2) ∧
    (∀ t' : IP4_ROUTE_TABLE, (t'.RouteArea (maskToLen m)).any (tripleEq d m g) = true →
      Ip4AddRoute t' d m g = (.ACCESS_DENIED, t')) := by
  have denied : ∀ t' : IP4_ROUTE_TABLE,
      (t'.RouteArea (maskToLen m)).any (tripleEq d m g) = true →
      Ip4AddRoute t' d m g = (.ACCESS_DENIED, t') := by
    intro t' h'
    unfold Ip4AddRoute
    rw [h']
    simp
  refine ⟨by simp [Ip4AddRoute, h], by simp [Ip4AddRoute, h], ?_, denied⟩
  have hany : ((Ip4AddRoute t d m g).2.RouteArea (maskToLen m)).any
      (tripleEq d m g) = true := by
    simp [Ip4AddRoute, h, tripleEq]
  exact denied _ hany

/-- C5: a direct route entry (one whose next hop equals its destination
network, the encoding Ip4AddRoute flags as IP4_DIRECT_ROUTE) makes
Ip4Route resolve a covered destination to the packet's own destination
address as effective next hop, not to the entry's stored next hop. -/
theorem ip4Route_direct (ops : List RtOp) (Dest Src : Nat) (e : IP4_ROUTE_ENTRY)
    (hmiss : Ip4FindRouteCache (Ip4RunOps ops) Dest Src = none)
    (hfind : Ip4FindRouteEntry (Ip4RunOps ops) Dest = some e)
    (hdir : e.NextHop = e.Dest) :
    ∃ c, (Ip4Route (Ip4RunOps ops) Dest Src).1 = some c ∧ c.NextHop = Dest ∧
      c.Tag = e.Id ∧ (Dest ≠ e.NextHop → c.NextHop ≠ e.NextHop) := by
  have hwf := wf_runOps ops
  obtain ⟨-, ⟨i, hmem⟩, -, -⟩ := findRouteEntry_lpm _ hwf Dest e hfind
  have hd : e.isDirect = true := by
    rw [hwf.direct i e hmem]
    simp [hdir]
  refine ⟨{ Dest := Dest, Src := Src, NextHop := Dest, Tag := e.Id }, ?_, rfl, rfl, fun hne => hne⟩
  simp [Ip4Route, hmiss, hfind, hd]

/-- C6: the route cache hashes a (destination, source) pair to bucket
(destination XOR source) mod 31 of the 31-bucket array; lookup scans
exactly that bucket, insertion inserts into exactly that bucket (leaving
all others untouched), and a lookup after an insertion of that pair finds
the inserted entry there. -/
theorem ip4RouteCacheHash_consistent (t : IP4_ROUTE_TABLE) (d s nh tg : Nat) :
    (Ip4RouteCacheHashFn d s).val = (d ^^^ s) % 31 ∧
    (Ip4RouteCacheHashFn d s).val < 31 ∧
    Ip4FindRouteCache t d s =
      (t.Cache (Ip4RouteCacheHashFn d s)).find? (fun c => c.Dest == d && c.Src == s) ∧
    Ip4FindRouteCache (Ip4RouteCacheInsert t ⟨d, s, nh, tg⟩) d s = some ⟨d, s, nh, tg⟩ ∧
    (∀ i, i ≠ Ip4RouteCacheHashFn d s →
      (Ip4RouteCacheInsert t ⟨d, s, nh, tg⟩).Cache i = t.Cache i) := by
  refine ⟨rfl, (Ip4RouteCacheHashFn d s).isLt, rfl, ?_, ?_⟩
  · simp [Ip4FindRouteCache, Ip4RouteCacheInsert]
  · intro i hi
    simp [Ip4RouteCacheInsert, hi]

/-- C7: a successful Ip4AddRoute leaves the embedded route cache entirely
unchanged, so every cached resolution is returned unchanged by
Ip4FindRouteCache after the call. -/
theorem ip4AddRoute_cache_frame (t : IP4_ROUTE_TABLE) (d m g : Nat)
    (h : (Ip4AddRoute t d m g).1 = .SUCCESS) :
    (Ip4AddRoute t d m g).2.Cache = t.Cache ∧
    ∀ D S, Ip4FindRouteCache (Ip4AddRoute t d m g).2 D S = Ip4FindRouteCache t D S := by
  have hc : (Ip4AddRoute t d m g).2.Cache = t.Cache := by
    cases hany : (t.RouteArea (maskToLen m)).any (tripleEq d m g) with
    | true => simp [Ip4AddRoute, hany]
    | false => simp [Ip4AddRoute, hany]
  exact ⟨hc, fun D S => by unfold Ip4FindRouteCache; rw [hc]⟩

/-- C8: when the (destination, source) pair is not cached and no route
entry of any bucket (0 up to 32, the default-route bucket included)
matches the destination, Ip4Route fails: it returns no cache entry and
leaves the table unchanged. -/
theorem ip4Route_unreachable (t : IP4_ROUTE_TABLE) (Dest Src : Nat)
    (hmiss : Ip4FindRouteCache t Dest Src = none)
    (hnone : ∀ i ∈ List.range 33, ∀ e ∈ t.RouteArea i, routeMatch Dest e = false) :
    Ip4Route t Dest Src = (none, t) := by
  have hscan : Ip4FindRouteEntry t Dest = none := by
    apply (scan_eq_none_iff t Dest 32).mpr
    intro L hL
    apply List.find?_eq_none.mpr
    intro x hx
    simp [hnone L (List.mem_range.mpr (by omega)) x hx]
  simp [Ip4Route, hmiss, hscan]

/-- When the target bucket respects the 64-entry cap, cache insertion
produces exactly the first 64 elements of (new entry :: old bucket): the
new entry at the head, the least-recently-inserted old entry dropped iff
the bucket was full. -/
theorem cacheInsert_bucket (t : IP4_ROUTE_TABLE) (c : IP4_ROUTE_CACHE_ENTRY)
    (hb : (t.Cache (Ip4RouteCacheHashFn c.Dest c.Src)).length ≤ 64) :
    (Ip4RouteCacheInsert t c).Cache (Ip4RouteCacheHashFn c.Dest c.Src) =
      (c :: t.Cache (Ip4RouteCacheHashFn c.Dest c.Src)).take 64 ∧
    ∀ i, i ≠ Ip4RouteCacheHashFn c.Dest c.Src →
      (Ip4RouteCacheInsert t c).Cache i = t.Cache i := by
  constructor
  · simp only [Ip4RouteCacheInsert, if_pos rfl]
    by_cases hfull : (t.Cache (Ip4RouteCacheHashFn c.Dest c.Src)).length ≥
        IP4_ROUTE_CACHE_MAX
    · rw [if_pos hfull]
      have h64 : (t.Cache (Ip4RouteCacheHashFn c.Dest c.Src)).length = 64 :=
        Nat.le_antisymm hb hfull
      rw [List.take_succ_cons, List.dropLast_eq_take, h64]
      simp
    · rw [if_neg hfull]
      have hlt : (t.Cache (Ip4RouteCacheHashFn c.Dest c.Src)).length < 64 := by
        simpa [IP4_ROUTE_CACHE_MAX] using hfull
      rw [List.take_succ_cons, List.take_of_length_le (by omega)]
      simp
  · intro i hi
    simp [Ip4RouteCacheInsert, hi]

/-- Folding cache insertions of entries that all hash to one bucket over a
capped table keeps exactly the 64 most recent entries of that bucket. -/
theorem cacheInsert_fold (hsh : Fin IP4_ROUTE_CACHE_HASH) :
    ∀ (es : List IP4_ROUTE_CACHE_ENTRY) (t : IP4_ROUTE_TABLE),
      (∀ c ∈ es, Ip4RouteCacheHashFn c.Dest c.Src = hsh) →
      (t.Cache hsh).length ≤ 64 →
      ((es.foldl Ip4RouteCacheInsert t).Cache hsh =
        (es.reverse ++ t.Cache hsh).take 64) ∧
      (∀ i, i ≠ hsh → (es.foldl Ip4RouteCacheInsert t).Cache i = t.Cache i) := by
  intro es
  induction es with
  | nil =>
    intro t hh hb
    refine ⟨?_, fun i hi => rfl⟩
    rw [List.reverse_nil, List.nil_append, List.take_of_length_le hb]
    rfl
  | cons c es ih =>
    intro t hh hb
    have hc : Ip4RouteCacheHashFn c.Dest c.Src = hsh := hh c (List.mem_cons_self c es)
    obtain ⟨hbucket, hother⟩ := cacheInsert_bucket t c (by rw [hc]; exact hb)
    rw [hc] at hbucket
    have hb' : ((Ip4RouteCacheInsert t c).Cache hsh).length ≤ 64 := by
      rw [hbucket]
      exact List.length_take_le 64 _
    obtain ⟨ih1, ih2⟩ := ih (Ip4RouteCacheInsert t c)
      (fun x hx => hh x (List.mem_cons_of_mem c hx)) hb'
    constructor
    · rw [List.foldl_cons, ih1, hbucket]
      rw [List.reverse_cons, List.append_assoc, List.singleton_append]
      rw [List.take_append_eq_append_take, List.take_append_eq_append_take]
      congr 1
      rw [List.take_take]
      congr 1
      exact Nat.min_eq_left (Nat.sub_le _ _)
    · intro i hi
      rw [List.foldl_cons, ih2 i hi]
      exact hother i (by rw [hc]; exact hi)

/-- C4: every route table operation preserves the 64-entry cap of every
cache hash bucket; an insertion into a full bucket evicts the
least-recently-inserted entry of that bucket first; and inserting 65
distinct (destination, source) pairs that hash to one bucket, starting
from an empty bucket, leaves that bucket with exactly the 64 most recent
entries, the first-inserted one evicted. -/
theorem ip4RouteCache_bucket_bound (t : IP4_ROUTE_TABLE)
    (hb : ∀ i, (t.Cache i).length ≤ 64) :
    (∀ d m g i, ((Ip4AddRoute t d m g).2.Cache i).length ≤ 64) ∧
    (∀ d m g i, ((Ip4DelRoute t d m g).2.Cache i).length ≤ 64) ∧
    (∀ d s i, ((Ip4Route t d s).2.Cache i).length ≤ 64) ∧
    (∀ c : IP4_ROUTE_CACHE_ENTRY,
      (∀ i, ((Ip4RouteCacheInsert t c).Cache i).length ≤ 64) ∧
      ((t.Cache (Ip4RouteCacheHashFn c.Dest c.Src)).length = 64 →
        (Ip4RouteCacheInsert t c).Cache (Ip4RouteCacheHashFn c.Dest c.Src) =
          c :: (t.Cache (Ip4RouteCacheHashFn c.Dest c.Src)).dropLast)) ∧
    (∀ (c0 : IP4_ROUTE_CACHE_ENTRY) (cs : List IP4_ROUTE_CACHE_ENTRY)
        (hsh : Fin IP4_ROUTE_CACHE_HASH),
      cs.length = 64 →
      (∀ c ∈ c0 :: cs, Ip4RouteCacheHashFn c.Dest c.Src = hsh) →
      (c0 :: cs).Pairwise (fun a b => (a.Dest, a.Src) ≠ (b.Dest, b.Src)) →
      t.Cache hsh = [] →
      ((c0 :: cs).foldl Ip4RouteCacheInsert t).Cache hsh = cs.reverse ∧
      (((c0 :: cs).foldl Ip4RouteCacheInsert t).Cache hsh).length = 64 ∧
      c0 ∉ ((c0 :: cs).foldl Ip4RouteCacheInsert t).Cache hsh) := by
  have hins : ∀ c : IP4_ROUTE_CACHE_ENTRY, ∀ i,
      ((Ip4RouteCacheInsert t c).Cache i).length ≤ 64 := by
    intro c i
    obtain ⟨h1, h2⟩ := cacheInsert_bucket t c (hb _)
    by_cases hi : i = Ip4RouteCacheHashFn c.Dest c.Src
    · subst hi
      rw [h1]
      exact List.length_take_le 64 _
    · rw [h2 i hi]
      exact hb i
  refine ⟨?_, ?_, ?_, ?_, ?_⟩
  · intro d m g i
    cases hany : (t.RouteArea (maskToLen m)).any (tripleEq d m g) with
    | true => simpa [Ip4AddRoute, hany] using hb i
    | false => simpa [Ip4AddRoute, hany] using hb i
  · intro d m g i
    cases hf : (t.RouteArea (maskToLen m)).find? (tripleEq d m g) with
    | none => simpa [Ip4DelRoute, hf] using hb i
    | some e =>
      simp only [Ip4DelRoute, hf]
      exact Nat.le_trans (List.length_filter_le _ _) (hb i)
  · intro d s i
    cases hcc : Ip4FindRouteCache t d s with
    | some c => simpa [Ip4Route, hcc] using hb i
    | none =>
      cases hfe : Ip4FindRouteEntry t d with
      | none => simpa [Ip4Route, hcc, hfe] using hb i
      | some e =>
        simp only [Ip4Route, hcc, hfe]
        exact hins _ i
  · intro c
    refine ⟨hins c, ?_⟩
    intro hfull
    obtain ⟨h1, -⟩ := cacheInsert_bucket t c (hb _)
    rw [h1, List.take_succ_cons, List.dropLast_eq_take, hfull]
  · intro c0 cs hsh hlen hh hdist hempty
    obtain ⟨h1, -⟩ := cacheInsert_fold hsh (c0 :: cs) t hh (by rw [hempty]; simp)
    have hbucket : ((c0 :: cs).foldl Ip4RouteCacheInsert t).Cache hsh = cs.reverse := by
      rw [h1, hempty, List.append_nil, List.reverse_cons]
      rw [List.take_append_eq_append_take]
      rw [List.take_of_length_le (by rw [List.length_reverse, hlen])]
      rw [List.length_reverse, hlen]
      simp
    refine ⟨hbucket, ?_, ?_⟩
    · rw [hbucket, List.length_reverse, hlen]
    · rw [hbucket]
      intro hc0
      have hc0cs : c0 ∈ cs := List.mem_reverse.mp hc0
      have := (List.pairwise_cons.mp hdist).1 c0 hc0cs
      exact this rfl

/-- C9: UdpIoRecvDatagram admits at most one pending receive request: with
a request already pending it returns EFI_ALREADY_STARTED and changes
nothing; whenever it does not return EFI_SUCCESS the port is left
unchanged (so RecvRequest stays null on the token-creation and Receive
failure paths); the pending request changes only when the call returns
EFI_SUCCESS, and on success it is exactly the freshly created token. -/
theorem udpIoRecvDatagram_single_pending (p : UDP_IO_PORT) (cb cx hl : Nat)
    (allocOk evOk : Bool) (rs : EfiStatus) :
    (∀ tk, p.RecvRequest = some tk →
      UdpIoRecvDatagram p cb cx hl allocOk evOk rs = (.ALREADY_STARTED, p)) ∧
    ((UdpIoRecvDatagram p cb cx hl allocOk evOk rs).1 ≠ .SUCCESS →
      (UdpIoRecvDatagram p cb cx hl allocOk evOk rs).2 = p) ∧
    ((UdpIoRecvDatagram p cb cx hl allocOk evOk rs).2.RecvRequest ≠ p.RecvRequest →
      (UdpIoRecvDatagram p cb cx hl allocOk evOk rs).1 = .SUCCESS) ∧
    (p.RecvRequest = none →
      (UdpIoRecvDatagram p cb cx hl allocOk evOk rs).1 = .SUCCESS →
      (UdpIoRecvDatagram p cb cx hl allocOk evOk rs).2.RecvRequest =
        some { CallBack := cb, Context := cx, HeadLen := hl, Status := .NOT_READY } ∧
      (UdpIoRecvDatagram p cb cx hl allocOk evOk rs).2.SentDatagram = p.SentDatagram) := by
  rcases p with ⟨rr, sd⟩
  cases rr <;> cases allocOk <;> cases evOk <;> cases rs <;>
    simp [UdpIoRecvDatagram, UdpIoCreateRxToken, EFI_ERROR]

/-- Unfolding equation of the least-significant-first digit list. -/
theorem lsbDigits_eq (v : Nat) :
    lsbDigits v = Char.ofNat (v % 10 + 48) ::
      (if v / 10 = 0 then [] else lsbDigits (v / 10)) := by
  by_cases hv : v = 0
  · subst hv
    simp [lsbDigits]
  · rw [lsbDigits, if_neg hv, Nat.digits_def' (by norm_num) (Nat.pos_of_ne_zero hv)]
    rw [List.map_cons]
    by_cases h0 : v / 10 = 0
    · rw [if_pos h0, h0]
      simp
    · rw [if_neg h0, lsbDigits, if_neg h0]

/-- The digit list of a number is never empty. -/
theorem lsbDigits_ne_nil (v : Nat) : lsbDigits v ≠ [] := by
  rw [lsbDigits_eq v]
  simp

/-- The most-significant-first digit list is the reverse of the
least-significant-first one. -/
theorem decChars_eq (n : Nat) : decChars n = (lsbDigits n).reverse := by
  by_cases hn : n = 0
  · subst hn
    rfl
  · rw [decChars, if_neg hn, lsbDigits, if_neg hn]

/-- The comma-inserting walk only depends on the counter modulo 3. -/
theorem commaIns_mod : ∀ (l : List Char) (nc nc' : Nat), nc % 3 = nc' % 3 →
    commaIns l nc = commaIns l nc'
  | [], _, _, _ => rfl
  | [d], _, _, _ => rfl
  | d :: e :: es, nc, nc', h => by
    rw [commaIns, commaIns]
    have h1 : (nc + 1) % 3 = (nc' + 1) % 3 := by omega
    rw [h1, commaIns_mod (e :: es) (nc + 1) (nc' + 1) h1]

/-- The comma loop of ValueToString produces exactly the digit list with
commas inserted after every third digit. -/
theorem vtsLoop_comma (v : Nat) : ∀ nc : Nat,
    vtsLoop true v nc = commaIns (lsbDigits v) nc := by
  induction v using Nat.strong_induction_on with
  | _ v ih =>
    intro nc
    by_cases h0 : v / 10 = 0
    · rw [vtsLoop, dif_pos h0]
      rw [lsbDigits_eq v, if_pos h0]
      rfl
    · rw [vtsLoop, dif_neg h0]
      rw [lsbDigits_eq v, if_neg h0]
      obtain ⟨e, es, hes⟩ := List.exists_cons_of_ne_nil (lsbDigits_ne_nil (v / 10))
      rw [hes, commaIns, ← hes]
      have hlt : v / 10 < v :=
        Nat.div_lt_self (Nat.pos_of_ne_zero (fun hv => h0 (by simp [hv]))) (by decide)
      rw [ih (v / 10) hlt (nc + 1)]
      by_cases h3 : (nc + 1) % 3 = 0 <;> simp [h3]

/-- Without the comma flag the loop of ValueToString produces exactly the
digit list, least significant first. -/
theorem vtsLoop_nocomma (v : Nat) : ∀ nc : Nat,
    vtsLoop false v nc = lsbDigits v := by
  induction v using Nat.strong_induction_on with
  | _ v ih =>
    intro nc
    by_cases h0 : v / 10 = 0
    · rw [vtsLoop, dif_pos h0, lsbDigits_eq v, if_pos h0]
    · rw [vtsLoop, dif_neg h0, lsbDigits_eq v, if_neg h0]
      have hlt : v / 10 < v :=
        Nat.div_lt_self (Nat.pos_of_ne_zero (fun hv => h0 (by simp [hv]))) (by decide)
      rw [ih (v / 10) hlt (nc + 1)]
      simp

/-- Lists of at most three characters receive no comma. -/
theorem commaIns_le_three : ∀ l : List Char, l.length ≤ 3 → commaIns l 0 = l := by
  intro l hl
  match l with
  | [] => rfl
  | [a] => rfl
  | [a, b] => rfl
  | [a, b, c] => rfl
  | a :: b :: c :: d :: l => simp at hl

/-- The spec-side comma rule (groups of three from the right) agrees with
the left-to-right comma walk on the reversed (least-significant-first)
list. -/
theorem specCommas_eq : ∀ (n : Nat) (ms : List Char), ms.length ≤ n →
    specCommas ms = (commaIns ms.reverse 0).reverse := by
  intro n
  induction n with
  | zero =>
    intro ms hlen
    have hms : ms = [] := List.length_eq_zero.mp (Nat.le_zero.mp hlen)
    subst hms
    simp [specCommas, commaIns]
  | succ n ih =>
    intro ms hlen
    by_cases h3 : ms.length ≤ 3
    · rw [specCommas, dif_pos h3]
      rw [commaIns_le_three ms.reverse (by rw [List.length_reverse]; exact h3)]
      rw [List.reverse_reverse]
    · rw [specCommas, dif_neg h3]
      have hlast : (ms.drop (ms.length - 3)).length = 3 := by
        rw [List.length_drop]
        omega
      obtain ⟨a, b, c, habc⟩ := List.length_eq_three.mp hlast
      have hms : ms = ms.take (ms.length - 3) ++ [a, b, c] := by
        rw [← habc, List.take_append_drop]
      have hfront : (ms.take (ms.length - 3)).length = ms.length - 3 := by
        rw [List.length_take]
        omega
      have hrev : ms.reverse = c :: b :: a :: (ms.take (ms.length - 3)).reverse := by
        conv_lhs => rw [hms]
        rw [List.reverse_append]
        rfl
      have hfne : (ms.take (ms.length - 3)).reverse ≠ [] := by
        intro hcontra
        have hlen0 := congrArg List.length hcontra
        rw [List.length_reverse, hfront] at hlen0
        simp only [List.length_nil] at hlen0
        omega
      obtain ⟨x, xs, hxs⟩ := List.exists_cons_of_ne_nil hfne
      rw [hrev, hxs, commaIns, commaIns, commaIns, ← hxs]
      norm_num
      rw [commaIns_mod (ms.take (ms.length - 3)).reverse 3 0 (by omega)]
      rw [ih (ms.take (ms.length - 3)) (by omega)]
      rw [habc]

/-- The negation step of ValueToString computes the absolute value. -/
theorem toNat_abs_ite (Value : Int) :
    (if Value < 0 then -Value else Value).toNat = Value.natAbs := by
  by_cases hv : Value < 0
  · rw [if_pos hv]
    omega
  · rw [if_neg hv]
    omega

/-- C10: for every INT64 value strictly above INT64_MIN, ValueToString
writes the decimal representation — a leading '-' exactly when the value
is negative, the digits most significant first, a ',' after every group
of three digits counted from the least-significant digit when the
COMMA_TYPE flag is set (never at the most-significant end), and a null
terminator — and returns the number of characters written excluding the
terminator. -/
theorem valueToString_decimal (Flags : Nat) (Value : Int)
    (h1 : -9223372036854775808 < Value) (h2 : Value < 9223372036854775808) :
    ValueToString Flags Value =
      (specDecimalString Flags Value ++ [Char.ofNat 0],
        (specDecimalString Flags Value).length) := by
  have hmain : (vtsLoop ((Flags &&& COMMA_TYPE) == COMMA_TYPE) Value.natAbs 0).reverse =
      (if (Flags &&& COMMA_TYPE) == COMMA_TYPE then
        specCommas (decChars Value.natAbs)
      else decChars Value.natAbs) := by
    cases hcm : (Flags &&& COMMA_TYPE) == COMMA_TYPE with
    | true =>
      rw [if_pos rfl]
      rw [vtsLoop_comma Value.natAbs 0, decChars_eq]
      rw [specCommas_eq (lsbDigits Value.natAbs).reverse.length _ (Nat.le_refl _)]
      rw [List.reverse_reverse]
    | false =>
      rw [if_neg (by simp)]
      rw [vtsLoop_nocomma Value.natAbs 0, decChars_eq]
  unfold ValueToString specDecimalString
  simp only [toNat_abs_ite, hmain]

/-- Concrete instance of the C1 theorem: a /24 route and a default route,
destination 10.0.0.66, the /24 entry wins. -/
theorem ip4Route_longest_prefix_match_witness :
    Ip4FindRouteCache (Ip4RunOps [RtOp.add 167772160 4294967040 167772161,
      RtOp.add 0 0 3232235777]) 167772226 1 = none ∧
    (∃ i e, e ∈ (Ip4RunOps [RtOp.add 167772160 4294967040 167772161,
      RtOp.add 0 0 3232235777]).RouteArea i ∧ routeMatch 167772226 e = true) ∧
    (∃ c e, (Ip4Route (Ip4RunOps [RtOp.add 167772160 4294967040 167772161,
        RtOp.add 0 0 3232235777]) 167772226 1).1 = some c ∧
      (∃ i, e ∈ (Ip4RunOps [RtOp.add 167772160 4294967040 167772161,
        RtOp.add 0 0 3232235777]).RouteArea i) ∧ routeMatch 167772226 e = true ∧
      c.Tag = e.Id ∧ c.NextHop = (if e.isDirect then 167772226 else e.NextHop) ∧
      (∀ j f, f ∈ (Ip4RunOps [RtOp.add 167772160 4294967040 167772161,
          RtOp.add 0 0 3232235777]).RouteArea j → routeMatch 167772226 f = true →
        maskToLen f.Netmask ≤ maskToLen e.Netmask) ∧
      (∀ j f, f ∈ (Ip4RunOps [RtOp.add 167772160 4294967040 167772161,
          RtOp.add 0 0 3232235777]).RouteArea j → routeMatch 167772226 f = true →
        maskToLen f.Netmask = maskToLen e.Netmask → f.Id ≤ e.Id)) :=
  ⟨by decide,
   ⟨24, ⟨167772160, 4294967040, 167772161, false, 0⟩, by decide, by decide⟩,
   ip4Route_longest_prefix_match _ 167772226 1 (by decide)
     ⟨24, ⟨167772160, 4294967040, 167772161, false, 0⟩, by decide, by decide⟩⟩

/-- Concrete instance of the C2 theorem: delete the only route after a
lookup cached an entry spawned from it. -/
theorem ip4DelRoute_invalidation_witness :
    ((Ip4RunOps [RtOp.add 167772160 4294967040 167772161,
        RtOp.route 167772167 9]).RouteArea (maskToLen 4294967040)).find?
      (tripleEq 167772160 4294967040 167772161) =
      some ⟨167772160, 4294967040, 167772161, false, 0⟩ ∧
    ((Ip4DelRoute (Ip4RunOps [RtOp.add 167772160 4294967040 167772161,
        RtOp.route 167772167 9]) 167772160 4294967040 167772161).1 = .SUCCESS ∧
    (∀ d s c, Ip4FindRouteCache
        (Ip4DelRoute (Ip4RunOps [RtOp.add 167772160 4294967040 167772161,
          RtOp.route 167772167 9]) 167772160 4294967040 167772161).2 d s = some c →
      c.Tag ≠ (⟨167772160, 4294967040, 167772161, false, 0⟩ : IP4_ROUTE_ENTRY).Id) ∧
    (∀ d s c, (Ip4Route
        (Ip4DelRoute (Ip4RunOps [RtOp.add 167772160 4294967040 167772161,
          RtOp.route 167772167 9]) 167772160 4294967040 167772161).2 d s).1 = some c →
      c.Tag ≠ (⟨167772160, 4294967040, 167772161, false, 0⟩ : IP4_ROUTE_ENTRY).Id)) :=
  ⟨by decide, ip4DelRoute_invalidation _ 167772160 4294967040 167772161 _ (by decide)⟩

/-- Concrete instance of the C3 theorem: adding 10.0.0.0/24 via 10.0.0.1
twice to the empty table. -/
theorem ip4AddRoute_duplicate_witness :
    ((Ip4CreateRouteTable.RouteArea (maskToLen 4294967040)).any
      (tripleEq 167772160 4294967040 167772161) = false) ∧
    ((Ip4AddRoute Ip4CreateRouteTable 167772160 4294967040 167772161).1 = .SUCCESS ∧
    (Ip4AddRoute Ip4CreateRouteTable 167772160 4294967040 167772161).2.TotalNum =
      Ip4CreateRouteTable.TotalNum + 1 ∧
    Ip4AddRoute (Ip4AddRoute Ip4CreateRouteTable 167772160 4294967040 167772161).2
        167772160 4294967040 167772161 =
      (.ACCESS_DENIED,
        (Ip4AddRoute Ip4CreateRouteTable 167772160 4294967040 167772161).2) ∧
    (∀ t' : IP4_ROUTE_TABLE,
      (t'.RouteArea (maskToLen 4294967040)).any
        (tripleEq 167772160 4294967040 167772161) = true →
      Ip4AddRoute t' 167772160 4294967040 167772161 = (.ACCESS_DENIED, t'))) :=
  ⟨by decide, ip4AddRoute_duplicate Ip4CreateRouteTable 167772160 4294967040 167772161 (by decide)⟩

/-- Concrete instance of the C4 theorem, at the empty route table. -/
theorem ip4RouteCache_bucket_bound_witness :
    (∀ i, (Ip4CreateRouteTable.Cache i).length ≤ 64) ∧
    ((∀ d m g i, ((Ip4AddRoute Ip4CreateRouteTable d m g).2.Cache i).length ≤ 64) ∧
    (∀ d m g i, ((Ip4DelRoute Ip4CreateRouteTable d m g).2.Cache i).length ≤ 64) ∧
    (∀ d s i, ((Ip4Route Ip4CreateRouteTable d s).2.Cache i).length ≤ 64) ∧
    (∀ c : IP4_ROUTE_CACHE_ENTRY,
      (∀ i, ((Ip4RouteCacheInsert Ip4CreateRouteTable c).Cache i).length ≤ 64) ∧
      ((Ip4CreateRouteTable.Cache (Ip4RouteCacheHashFn c.Dest c.Src)).length = 64 →
        (Ip4RouteCacheInsert Ip4CreateRouteTable c).Cache
            (Ip4RouteCacheHashFn c.Dest c.Src) =
          c :: (Ip4CreateRouteTable.Cache (Ip4RouteCacheHashFn c.Dest c.Src)).dropLast)) ∧
    (∀ (c0 : IP4_ROUTE_CACHE_ENTRY) (cs : List IP4_ROUTE_CACHE_ENTRY)
        (hsh : Fin IP4_ROUTE_CACHE_HASH),
      cs.length = 64 →
      (∀ c ∈ c0 :: cs, Ip4RouteCacheHashFn c.Dest c.Src = hsh) →
      (c0 :: cs).Pairwise (fun a b => (a.Dest, a.Src) ≠ (b.Dest, b.Src)) →
      Ip4CreateRouteTable.Cache hsh = [] →
      ((c0 :: cs).foldl Ip4RouteCacheInsert Ip4CreateRouteTable).Cache hsh = cs.reverse ∧
      (((c0 :: cs).foldl Ip4RouteCacheInsert Ip4CreateRouteTable).Cache hsh).length = 64 ∧
      c0 ∉ ((c0 :: cs).foldl Ip4RouteCacheInsert Ip4CreateRouteTable).Cache hsh)) :=
  ⟨by decide, ip4RouteCache_bucket_bound Ip4CreateRouteTable (by decide)⟩

/-- Concrete instance of the C5 theorem: direct route 192.168.1.0/24,
destination 192.168.1.42 resolves to itself. -/
theorem ip4Route_direct_witness :
    Ip4FindRouteCache (Ip4RunOps [RtOp.add 3232235776 4294967040 3232235776])
      3232235818 5 = none ∧
    Ip4FindRouteEntry (Ip4RunOps [RtOp.add 3232235776 4294967040 3232235776])
      3232235818 = some ⟨3232235776, 4294967040, 3232235776, true, 0⟩ ∧
    (⟨3232235776, 4294967040, 3232235776, true, 0⟩ : IP4_ROUTE_ENTRY).NextHop =
      (⟨3232235776, 4294967040, 3232235776, true, 0⟩ : IP4_ROUTE_ENTRY).Dest ∧
    (∃ c, (Ip4Route (Ip4RunOps [RtOp.add 3232235776 4294967040 3232235776])
        3232235818 5).1 = some c ∧ c.NextHop = 3232235818 ∧
      c.Tag = (⟨3232235776, 4294967040, 3232235776, true, 0⟩ : IP4_ROUTE_ENTRY).Id ∧
      (3232235818 ≠ (⟨3232235776, 4294967040, 3232235776, true, 0⟩ : IP4_ROUTE_ENTRY).NextHop →
        c.NextHop ≠ (⟨3232235776, 4294967040, 3232235776, true, 0⟩ : IP4_ROUTE_ENTRY).NextHop)) :=
  ⟨by decide, by decide, rfl,
   ip4Route_direct _ 3232235818 5 _ (by decide) (by decide) rfl⟩

/-- Concrete instance of the C7 theorem: a successful add into the empty
table leaves the (empty) cache untouched. -/
theorem ip4AddRoute_cache_frame_witness :
    (Ip4AddRoute Ip4CreateRouteTable 167772160 4294967040 167772161).1 = .SUCCESS ∧
    ((Ip4AddRoute Ip4CreateRouteTable 167772160 4294967040 167772161).2.Cache =
      Ip4CreateRouteTable.Cache ∧
    ∀ D S, Ip4FindRouteCache
        (Ip4AddRoute Ip4CreateRouteTable 167772160 4294967040 167772161).2 D S =
      Ip4FindRouteCache Ip4CreateRouteTable D S) :=
  ⟨by decide, ip4AddRoute_cache_frame Ip4CreateRouteTable 167772160 4294967040 167772161 (by decide)⟩

/-- Concrete instance of the C8 theorem: a table holding only 10.0.0.0/24
cannot route 11.0.0.1. -/
theorem ip4Route_unreachable_witness :
    Ip4FindRouteCache (Ip4RunOps [RtOp.add 167772160 4294967040 167772161])
      184549377 2 = none ∧
    (∀ i ∈ List.range 33, ∀ e ∈ (Ip4RunOps [RtOp.add 167772160 4294967040
      167772161]).RouteArea i, routeMatch 184549377 e = false) ∧
    Ip4Route (Ip4RunOps [RtOp.add 167772160 4294967040 167772161]) 184549377 2 =
      (none, Ip4RunOps [RtOp.add 167772160 4294967040 167772161]) :=
  ⟨by decide, by decide,
   ip4Route_unreachable _ 184549377 2 (by decide) (by decide)⟩

/-- Concrete instance of the C10 theorem: -1234567 with the comma flag. -/
theorem valueToString_decimal_witness :
    (-9223372036854775808 : Int) < -1234567 ∧ (-1234567 : Int) < 9223372036854775808 ∧
    ValueToString 8 (-1234567) =
      (specDecimalString 8 (-1234567) ++ [Char.ofNat 0],
        (specDecimalString 8 (-1234567)).length) :=
  ⟨by decide, by decide, valueToString_decimal 8 (-1234567) (by decide) (by decide)⟩
